import Mathlib

/-!
Formal model of the `pixel-fast-life` application (`src/__init__.py`), a
Conway's-Life variant with fading cell intensities on a padded flat grid,
together with proofs checking the natural-language specification against it.

The board is a flat array of `(COLS+2)*(ROWS+2)` byte intensities with a
one-cell zero padding border.  Randomness (Python's `random()` draws and
`choice(COLORS)`) is modelled by explicit parameters: a `Nat → Bool` stream
giving the outcome of each `random() <= density` test, and a chosen color.
Side effects that do not touch simulation state (console printing, the rgb
display driver, `valuestore.save`) are modelled by returned values (pixel
lists, saved/flashed flags) where a claim needs them.
-/

set_option maxRecDepth 40000

namespace FastLife

/-- Number of logical rows (source constant `ROWS = 8`). -/
def ROWS : Nat := 8

/-- Number of logical columns (source constant `COLS = 32`). -/
def COLS : Nat := 32

/-- Total padded cell count, `(COLS + 2) * (ROWS + 2)` (source `CELL_COUNT`). -/
def CELL_COUNT : Nat := (COLS + 2) * (ROWS + 2)

/-- Flat index of the first logical cell, `COLS + 3` (source `OFFSET`). -/
def OFFSET : Nat := COLS + 3

/-- Stagnation round cap (source `MAX_ROUNDS = 200`). -/
def MAX_ROUNDS : Nat := 200

/-- An RGB color, a 3-tuple of byte values. -/
abbrev Color := Nat × Nat × Nat

/-- A board: flat list of cell intensities (Python `bytearray(CELL_COUNT)`). -/
abbrev Board := List Nat

/-- The pool of "live" cell colors (source `COLORS`). -/
def COLORS : List Color :=
  [(0x00, 0xFF, 0x00), (0x00, 0x00, 0xFF), (0xFF, 0x00, 0x00),
   (0xB8, 0xE9, 0x86), (0xF8, 0xB7, 0x00), (0x50, 0xE3, 0xC2),
   (0xFE, 0x13, 0xD4), (0x90, 0x13, 0xFE)]

/-- The fade-out palette (source `palette`); slot 8 is replaced with a live
color at each reset. -/
def palette : List Color :=
  [(52, 41, 51), (68, 50, 58), (83, 60, 63), (96, 71, 67), (106, 84, 71),
   (114, 98, 77), (118, 113, 87), (119, 128, 100), (250, 250, 110)]

/-- Flat index of logical cell `(col, row)`: `OFFSET + row * (COLS + 2) + col`.
This is the value of the source's running `pos` counter at row `r`, column `c`
(it starts at `OFFSET`, advances by 1 per column and 2 extra per row). -/
def logicalPos (r c : Nat) : Nat := OFFSET + r * (COLS + 2) + c

/-- A flat index addresses a logical (non-padding) cell. -/
def isLogical (p : Nat) : Prop :=
  ∃ r, r < ROWS ∧ ∃ c, c < COLS ∧ p = logicalPos r c

instance (p : Nat) : Decidable (isLogical p) := by
  unfold isLogical logicalPos; infer_instance

/-- All logical flat indices in the source's row-major iteration order. -/
def logicalPositions : List Nat :=
  (List.range ROWS).flatMap (fun r => (List.range COLS).map (fun c => logicalPos r c))

/-! ### Generic lemmas about loops that write cells of a list -/

theorem length_foldl_set (g v : Nat → Nat) (ps : List Nat) (b : Board) :
    (ps.foldl (fun acc i => acc.set (g i) (v i)) b).length = b.length := by
  induction ps generalizing b with
  | nil => rfl
  | cons i tl ih => simp [List.foldl_cons, ih]

theorem getD_set_of_ne (b : Board) (p q v : Nat) (h : p ≠ q) :
    (b.set p v).getD q 0 = b.getD q 0 := by
  simp [List.getD_eq_getElem?_getD, List.getElem?_set_ne h]

theorem getD_set_self (b : Board) (p v : Nat) (hp : p < b.length) :
    (b.set p v).getD p 0 = v := by
  simp [List.getD_eq_getElem?_getD, List.getElem?_set_self hp]

/-- A write loop leaves every index it never writes unchanged. -/
theorem getD_foldl_set_of_not_written (g v : Nat → Nat) (ps : List Nat) (b : Board)
    (q : Nat) (h : ∀ i ∈ ps, g i ≠ q) :
    (ps.foldl (fun acc i => acc.set (g i) (v i)) b).getD q 0 = b.getD q 0 := by
  induction ps generalizing b with
  | nil => rfl
  | cons i tl ih =>
      rw [List.foldl_cons, ih _ (fun j hj => h j (List.mem_cons_of_mem i hj))]
      exact getD_set_of_ne b (g i) q (v i) (h i (List.mem_cons_self i tl))

/-- A write loop stores the common value written to an index it does write. -/
theorem getD_foldl_set_of_written (g v : Nat → Nat) (ps : List Nat) (b : Board)
    (q w : Nat) (hq : q < b.length)
    (hmem : ∃ i ∈ ps, g i = q) (hval : ∀ i ∈ ps, g i = q → v i = w) :
    (ps.foldl (fun acc i => acc.set (g i) (v i)) b).getD q 0 = w := by
  induction ps generalizing b with
  | nil => exact absurd hmem (by simp)
  | cons i tl ih =>
      rw [List.foldl_cons]
      by_cases htl : ∃ j ∈ tl, g j = q
      · exact ih _ (by simpa using hq) htl
          (fun j hj => hval j (List.mem_cons_of_mem i hj))
      · have hgi : g i = q := by
          rcases hmem with ⟨j, hj, hgj⟩
          rcases List.mem_cons.mp hj with rfl | hjt
          · exact hgj
          · exact absurd ⟨j, hjt, hgj⟩ htl
        rw [getD_foldl_set_of_not_written g v tl _ q
              (fun j hj hgj => htl ⟨j, hj, hgj⟩),
            hgi, getD_set_self b q (v i) hq]
        exact hval i (List.mem_cons_self i tl) hgi

/-- A write loop whose written values stay ≤ 9 keeps every cell ≤ 9. -/
theorem getD_foldl_set_le (g v : Nat → Nat) (ps : List Nat) (b : Board)
    (hb : ∀ q, b.getD q 0 ≤ 9) (hv : ∀ i ∈ ps, v i ≤ 9) :
    ∀ q, (ps.foldl (fun acc i => acc.set (g i) (v i)) b).getD q 0 ≤ 9 := by
  induction ps generalizing b with
  | nil => exact hb
  | cons i tl ih =>
      rw [List.foldl_cons]
      refine ih _ (fun q => ?_) (fun j hj => hv j (List.mem_cons_of_mem i hj))
      by_cases hq : g i = q
      · subst hq
        by_cases hlt : g i < b.length
        · rw [getD_set_self b _ _ hlt]; exact hv i (List.mem_cons_self i tl)
        · rw [List.set_eq_of_length_le (Nat.le_of_not_lt hlt)]; exact hb _
      · rw [getD_set_of_ne b _ _ _ hq]; exact hb _

/-! ### The evolution engine (`evolve_board`) and randomization -/

/-- Count of the 8 neighbor cells of flat index `pos` whose intensity is
exactly 9, using the source's flat-offset reads
(`pos - COLS - 3`, `pos - COLS - 2`, `pos - COLS - 1`, `pos - 1`, `pos + 1`,
`pos + COLS + 1`, `pos + COLS + 2`, `pos + COLS + 3`). -/
def neighborCount (board_in : Board) (pos : Nat) : Nat :=
  (if board_in.getD (pos - COLS - 3) 0 = 9 then 1 else 0)
  + (if board_in.getD (pos - COLS - 2) 0 = 9 then 1 else 0)
  + (if board_in.getD (pos - COLS - 1) 0 = 9 then 1 else 0)
  + (if board_in.getD (pos - 1) 0 = 9 then 1 else 0)
  + (if board_in.getD (pos + 1) 0 = 9 then 1 else 0)
  + (if board_in.getD (pos + COLS + 1) 0 = 9 then 1 else 0)
  + (if board_in.getD (pos + COLS + 2) 0 = 9 then 1 else 0)
  + (if board_in.getD (pos + COLS + 3) 0 = 9 then 1 else 0)

/-- The value the source's loop body stores into `board_out[pos]`:
9 on survival (live, 2 or 3 live neighbors) or birth (non-live, exactly 3),
else `max(0, board_in[pos] - 1)`. -/
def cellNext (board_in : Board) (pos : Nat) : Nat :=
  let count := neighborCount board_in pos
  if board_in.getD pos 0 = 9 then
    if count = 2 ∨ count = 3 then 9 else max 0 (board_in.getD pos 0 - 1)
  else
    if count = 3 then 9 else max 0 (board_in.getD pos 0 - 1)

/-- Source `evolve_board(board_in, board_out)`: for every logical cell
(row-major nested loops, running index `pos = OFFSET + r*(COLS+2) + c`)
store `cellNext board_in pos` into `board_out`; padding is never written. -/
def evolve_board (board_in board_out : Board) : Board :=
  (List.range ROWS).foldl
    (fun acc r =>
      (List.range COLS).foldl
        (fun acc c =>
          acc.set (OFFSET + r * (COLS + 2) + c)
            (cellNext board_in (OFFSET + r * (COLS + 2) + c)))
        acc)
    board_out

/-- Source `randomize_board(board, density)`: for `i` in `range(COLS*ROWS)`
store 9 or 0 into `board[OFFSET + i + 2 * (i / COLS)]` according to the draw
`random() <= density`, modelled by the boolean stream `draws`. -/
def randomize_board (board : Board) (draws : Nat → Bool) : Board :=
  (List.range (COLS * ROWS)).foldl
    (fun acc i =>
      acc.set (OFFSET + i + 2 * (i / COLS)) (if draws i then 9 else 0))
    board

theorem foldl_flatMap {α β γ : Type} (f : β → List α) (step : γ → α → γ) :
    ∀ (l : List β) (b : γ),
      (l.flatMap f).foldl step b = l.foldl (fun b x => (f x).foldl step b) b
  | [], _ => rfl
  | x :: l, b => by
      rw [List.flatMap_cons, List.foldl_append, List.foldl_cons,
        foldl_flatMap f step l]

/-- `evolve_board` is the single write loop over `logicalPositions`. -/
theorem evolve_board_eq_foldl (board_in board_out : Board) :
    evolve_board board_in board_out =
      logicalPositions.foldl
        (fun acc p => acc.set p (cellNext board_in p)) board_out := by
  rw [logicalPositions, foldl_flatMap]
  simp only [List.foldl_map]
  rfl

/-- Membership in `logicalPositions` is exactly `isLogical`. -/
theorem mem_logicalPositions (p : Nat) : p ∈ logicalPositions ↔ isLogical p := by
  unfold logicalPositions isLogical
  simp only [List.mem_flatMap, List.mem_map, List.mem_range]
  constructor
  · rintro ⟨r, hr, c, hc, h⟩; exact ⟨r, hr, c, hc, h.symm⟩
  · rintro ⟨r, hr, c, hc, h⟩; exact ⟨r, hr, c, hc, h.symm⟩

/-! ### Spec-side neighbor counting, in grid coordinates

The spec describes the live-neighbor count geometrically: the 8 neighbors
(N, S, E, W and the 4 diagonals) of logical cell `(col, row)`.  In the padded
array, cell `(col=c, row=r)` sits at padded coordinates `(r+1, c+1)`, so its
8 neighbors occupy padded coordinates `(r+a, c+b)` for `a, b ∈ {0,1,2}`
with `(a,b) ≠ (1,1)`.  These definitions follow the spec's words; the
theorems below compare them with the source's flat-offset reads. -/

/-- Flat index of padded coordinate `(row pr, column pc)`. -/
def padIdx (pr pc : Nat) : Nat := pr * (COLS + 2) + pc

/-- Modelled from the spec: number of the 8 neighbors (N, S, E, W, and the 4
diagonals) of logical cell `(col c, row r)` whose intensity equals exactly 9
(so cells with intensity 1-8, the fading remnants, never count). -/
def specLiveNeighbors (g : Board) (r c : Nat) : Nat :=
  (if g.getD (padIdx r c) 0 = 9 then 1 else 0)
  + (if g.getD (padIdx r (c + 1)) 0 = 9 then 1 else 0)
  + (if g.getD (padIdx r (c + 2)) 0 = 9 then 1 else 0)
  + (if g.getD (padIdx (r + 1) c) 0 = 9 then 1 else 0)
  + (if g.getD (padIdx (r + 1) (c + 2)) 0 = 9 then 1 else 0)
  + (if g.getD (padIdx (r + 2) c) 0 = 9 then 1 else 0)
  + (if g.getD (padIdx (r + 2) (c + 1)) 0 = 9 then 1 else 0)
  + (if g.getD (padIdx (r + 2) (c + 2)) 0 = 9 then 1 else 0)

/-- Modelled from the spec: next intensity of logical cell `(col c, row r)`:
9 if the cell is exactly 9 with 2 or 3 live neighbors, 9 if the cell is in
0-8 with exactly 3 live neighbors, otherwise `max 0 (intensity - 1)`. -/
def specNext (g : Board) (r c : Nat) : Nat :=
  let n := specLiveNeighbors g r c
  let v := g.getD (logicalPos r c) 0
  if v = 9 ∧ (n = 2 ∨ n = 3) then 9
  else if v ≤ 8 ∧ n = 3 then 9
  else max 0 (v - 1)

/-- The source's eight flat-offset reads are exactly the spec's eight
geometric neighbors. -/
theorem neighborCount_eq_specLive (g : Board) (r c : Nat) :
    neighborCount g (logicalPos r c) = specLiveNeighbors g r c := by
  have e1 : logicalPos r c - COLS - 3 = padIdx r c := by
    unfold logicalPos padIdx OFFSET COLS; omega
  have e2 : logicalPos r c - COLS - 2 = padIdx r (c + 1) := by
    unfold logicalPos padIdx OFFSET COLS; omega
  have e3 : logicalPos r c - COLS - 1 = padIdx r (c + 2) := by
    unfold logicalPos padIdx OFFSET COLS; omega
  have e4 : logicalPos r c - 1 = padIdx (r + 1) c := by
    unfold logicalPos padIdx OFFSET COLS; omega
  have e5 : logicalPos r c + 1 = padIdx (r + 1) (c + 2) := by
    unfold logicalPos padIdx OFFSET COLS; omega
  have e6 : logicalPos r c + COLS + 1 = padIdx (r + 2) c := by
    unfold logicalPos padIdx OFFSET COLS; omega
  have e7 : logicalPos r c + COLS + 2 = padIdx (r + 2) (c + 1) := by
    unfold logicalPos padIdx OFFSET COLS; omega
  have e8 : logicalPos r c + COLS + 3 = padIdx (r + 2) (c + 2) := by
    unfold logicalPos padIdx OFFSET COLS; omega
  unfold neighborCount specLiveNeighbors
  rw [e1, e2, e3, e4, e5, e6, e7, e8]

/-- At a cell of intensity at most 9 the source's loop body computes exactly
the spec's rule. -/
theorem cellNext_eq_specNext (g : Board) (r c : Nat)
    (hv : g.getD (logicalPos r c) 0 ≤ 9) :
    cellNext g (logicalPos r c) = specNext g r c := by
  unfold cellNext specNext
  rw [neighborCount_eq_specLive]
  simp only [Nat.zero_max]
  split_ifs <;> omega

/-! ### Well-formed boards and the padding invariant -/

/-- A well-formed board: correct length, zero padding, intensities in [0,9]. -/
def WellFormed (b : Board) : Prop :=
  b.length = CELL_COUNT ∧
  (∀ p, p < CELL_COUNT → ¬ isLogical p → b.getD p 0 = 0) ∧
  (∀ p, p < CELL_COUNT → b.getD p 0 ≤ 9)

instance (b : Board) : Decidable (WellFormed b) := by
  unfold WellFormed; infer_instance

/-- An all-zero (fully dead) well-formed board. -/
def zeroBoard : Board := List.replicate CELL_COUNT 0

theorem zeroBoard_wf : WellFormed zeroBoard := by
  refine ⟨List.length_replicate _ _, fun p _ _ => ?_, fun p _ => ?_⟩ <;>
    (rw [zeroBoard, List.getD_eq_getElem?_getD, List.getElem?_replicate]
     split <;> simp)

theorem logicalPos_lt (r c : Nat) (hr : r < ROWS) (hc : c < COLS) :
    logicalPos r c < CELL_COUNT := by
  unfold logicalPos OFFSET CELL_COUNT COLS ROWS at *; omega

theorem getD_le_of_bounded (b : Board) (hlen : b.length = CELL_COUNT)
    (h : ∀ p, p < CELL_COUNT → b.getD p 0 ≤ 9) : ∀ q, b.getD q 0 ≤ 9 := by
  intro q
  by_cases hq : q < CELL_COUNT
  · exact h q hq
  · rw [List.getD_eq_getElem?_getD, List.getElem?_eq_none (by omega)]
    simp

theorem cellNext_le (g : Board) (pos : Nat) (h : g.getD pos 0 ≤ 9) :
    cellNext g pos ≤ 9 := by
  unfold cellNext
  simp only [Nat.zero_max]
  split_ifs <;> omega

/-- Each index `randomize_board` writes is a logical cell, namely the cell at
row `i / COLS`, column `i % COLS`. -/
theorem randomize_index_logical (i : Nat) (hi : i < COLS * ROWS) :
    isLogical (OFFSET + i + 2 * (i / COLS)) := by
  refine ⟨i / COLS, ?_, i % COLS, ?_, ?_⟩ <;>
    simp only [logicalPos, OFFSET, COLS, ROWS] at hi ⊢ <;> omega

/-- C10: for every logical cell, the eight neighbor indices read by
`evolve_board` and the written index `pos = logicalPos r c` all lie within
`[0, CELL_COUNT)`; moreover `pos ≥ COLS + 3`, so the three subtracted offsets
never underflow. -/
theorem C10_index_bounds (r c : Nat) (hr : r < ROWS) (hc : c < COLS) :
    COLS + 3 ≤ logicalPos r c ∧
    logicalPos r c - COLS - 3 < CELL_COUNT ∧
    logicalPos r c - COLS - 2 < CELL_COUNT ∧
    logicalPos r c - COLS - 1 < CELL_COUNT ∧
    logicalPos r c - 1 < CELL_COUNT ∧
    logicalPos r c + 1 < CELL_COUNT ∧
    logicalPos r c + COLS + 1 < CELL_COUNT ∧
    logicalPos r c + COLS + 2 < CELL_COUNT ∧
    logicalPos r c + COLS + 3 < CELL_COUNT ∧
    logicalPos r c < CELL_COUNT := by
  unfold logicalPos OFFSET CELL_COUNT COLS ROWS at *; omega

/-- C10 witness: instantiation at the last logical cell. -/
theorem C10_witness :
    COLS + 3 ≤ logicalPos 7 31 ∧
    logicalPos 7 31 - COLS - 3 < CELL_COUNT ∧
    logicalPos 7 31 - COLS - 2 < CELL_COUNT ∧
    logicalPos 7 31 - COLS - 1 < CELL_COUNT ∧
    logicalPos 7 31 - 1 < CELL_COUNT ∧
    logicalPos 7 31 + 1 < CELL_COUNT ∧
    logicalPos 7 31 + COLS + 1 < CELL_COUNT ∧
    logicalPos 7 31 + COLS + 2 < CELL_COUNT ∧
    logicalPos 7 31 + COLS + 3 < CELL_COUNT ∧
    logicalPos 7 31 < CELL_COUNT :=
  C10_index_bounds 7 31 (by decide) (by decide)

/-- C1: for every input grid with intensities in [0,9] and every logical cell
`(col c, row r)`, `evolve_board` writes to the corresponding output cell
exactly the spec's value: 9 on survival (intensity 9 with 2 or 3 live
neighbors, counted geometrically over the 8 neighbors with only intensity-9
cells alive), 9 on birth (intensity 0-8 with exactly 3 live neighbors), and
otherwise `max 0 (intensity - 1)`. -/
theorem C1_evolve_rule (board_in board_out : Board)
    (hlen : board_out.length = CELL_COUNT)
    (hbin : ∀ p, p < CELL_COUNT → board_in.getD p 0 ≤ 9)
    (r c : Nat) (hr : r < ROWS) (hc : c < COLS) :
    (evolve_board board_in board_out).getD (logicalPos r c) 0 =
      specNext board_in r c := by
  rw [evolve_board_eq_foldl,
    ← cellNext_eq_specNext board_in r c (hbin _ (logicalPos_lt r c hr hc))]
  exact getD_foldl_set_of_written (fun p => p) (cellNext board_in)
    logicalPositions board_out (logicalPos r c) _
    (by rw [hlen]; exact logicalPos_lt r c hr hc)
    ⟨logicalPos r c, (mem_logicalPositions _).mpr ⟨r, hr, c, hc, rfl⟩, rfl⟩
    (fun i _ h => congrArg (cellNext board_in) h)

/-- C1 witness: the rule instantiated on the all-dead board at cell (0,0). -/
theorem C1_witness :
    (evolve_board zeroBoard zeroBoard).getD (logicalPos 0 0) 0 =
      specNext zeroBoard 0 0 :=
  C1_evolve_rule zeroBoard zeroBoard zeroBoard_wf.1 zeroBoard_wf.2.2 0 0
    (by decide) (by decide)

/-- C3: well-formedness is an invariant of `randomize_board` and
`evolve_board`: the length is preserved, every padding cell is left exactly
as it was (neither function writes any padding index, only logical cells),
hence stays 0, and every intensity stays in [0,9]. -/
theorem C3_wellformed_invariant (b board_in board_out : Board)
    (draws : Nat → Bool)
    (hb : WellFormed b) (hin : WellFormed board_in)
    (hout : WellFormed board_out) :
    WellFormed (randomize_board b draws) ∧
    WellFormed (evolve_board board_in board_out) ∧
    (∀ p, p < CELL_COUNT → ¬ isLogical p →
      (randomize_board b draws).getD p 0 = b.getD p 0 ∧
      (evolve_board board_in board_out).getD p 0 = board_out.getD p 0) := by
  obtain ⟨hbl, hbp, hb9⟩ := hb
  obtain ⟨hinl, hinp, hin9⟩ := hin
  obtain ⟨houtl, houtp, hout9⟩ := hout
  have hrand_untouched : ∀ p, ¬ isLogical p →
      (randomize_board b draws).getD p 0 = b.getD p 0 := by
    intro p hp
    unfold randomize_board
    exact getD_foldl_set_of_not_written
      (fun i => OFFSET + i + 2 * (i / COLS)) (fun i => if draws i then 9 else 0)
      _ b p
      (fun i hi he =>
        hp (he ▸ randomize_index_logical i (List.mem_range.mp hi)))
  have hev_untouched : ∀ p, ¬ isLogical p →
      (evolve_board board_in board_out).getD p 0 = board_out.getD p 0 := by
    intro p hp
    rw [evolve_board_eq_foldl]
    exact getD_foldl_set_of_not_written (fun q => q) (cellNext board_in)
      _ board_out p
      (fun i hi he => hp (he ▸ (mem_logicalPositions i).mp hi))
  have hrand_len : (randomize_board b draws).length = CELL_COUNT := by
    unfold randomize_board
    rw [length_foldl_set (fun i => OFFSET + i + 2 * (i / COLS))
      (fun i => if draws i then 9 else 0)]
    exact hbl
  have hev_len : (evolve_board board_in board_out).length = CELL_COUNT := by
    rw [evolve_board_eq_foldl,
      length_foldl_set (fun q => q) (cellNext board_in)]
    exact houtl
  refine ⟨⟨hrand_len, ?_, ?_⟩, ⟨hev_len, ?_, ?_⟩, ?_⟩
  · intro p hp hnp; rw [hrand_untouched p hnp]; exact hbp p hp hnp
  · intro p _
    refine getD_foldl_set_le _ _ _ b (getD_le_of_bounded b hbl hb9) ?_ p
    intro i _; dsimp only; split <;> omega
  · intro p hp hnp; rw [hev_untouched p hnp]; exact houtp p hp hnp
  · intro p _
    rw [evolve_board_eq_foldl]
    refine getD_foldl_set_le _ _ _ board_out
      (getD_le_of_bounded board_out houtl hout9) ?_ p
    intro i _
    exact cellNext_le board_in i (getD_le_of_bounded board_in hinl hin9 i)
  · intro p hp hnp
    exact ⟨hrand_untouched p hnp, hev_untouched p hnp⟩

/-- C3 witness: the invariant instantiated on all-dead boards with an
all-false draw stream. -/
theorem C3_witness :
    WellFormed (randomize_board zeroBoard (fun _ => false)) ∧
    WellFormed (evolve_board zeroBoard zeroBoard) ∧
    (∀ p, p < CELL_COUNT → ¬ isLogical p →
      (randomize_board zeroBoard (fun _ => false)).getD p 0 =
        zeroBoard.getD p 0 ∧
      (evolve_board zeroBoard zeroBoard).getD p 0 = zeroBoard.getD p 0) :=
  C3_wellformed_invariant zeroBoard zeroBoard zeroBoard (fun _ => false)
    zeroBoard_wf zeroBoard_wf zeroBoard_wf

/-! ### The frame scheduler (`run_game`'s closures `do_reset` / `do_frame`)

The closure state of `run_game` (`board`, `next_board`, `board2`, `board3`,
`round`, the global `reset_flag`, and the tint stored in `palette[8]`) is an
explicit structure.  `do_frame`'s call to `show_board` only writes to the
display and is omitted from the state transition; the console notifications
("Board finished" / "Bored of this board") coincide with setting the reset
flag and are represented by it. -/

structure GameState where
  board : Board
  next_board : Board
  board2 : Board
  board3 : Board
  round : Nat
  reset_flag : Bool
  tint : Color
deriving DecidableEq

/-- Source `do_reset`: randomize `board` in place, replace the three other
buffers with fresh zero buffers, pick a new tint for `palette[8]` (the
`choice(COLORS)` outcome is the parameter `cc`), clear the round counter and
the reset flag. -/
def do_reset (s : GameState) (draws : Nat → Bool) (cc : Color) : GameState :=
  { board := randomize_board s.board draws
    next_board := List.replicate CELL_COUNT 0
    board2 := List.replicate CELL_COUNT 0
    board3 := List.replicate CELL_COUNT 0
    round := 0
    reset_flag := false
    tint := cc }

/-- Source `do_frame`: reset if the flag is set, evolve `board` into
`next_board`, then either detect stagnation (repeat of any of the three
retained grids, or round cap) — setting the reset flag and returning
`delay_ms * 3` — or rotate the four buffers and return `delay_ms`.  The
returned integer is the next timer period in milliseconds. -/
def do_frame (s : GameState) (delay_ms : Int) (draws : Nat → Bool)
    (cc : Color) : GameState × Int :=
  let s1 := if s.reset_flag then do_reset s draws cc else s
  let nb := evolve_board s1.board s1.next_board
  if nb = s1.board ∨ nb = s1.board2 ∨ nb = s1.board3 then
    ({ s1 with next_board := nb, reset_flag := true }, delay_ms * 3)
  else if s1.round + 1 > MAX_ROUNDS then
    ({ s1 with next_board := nb, round := s1.round + 1, reset_flag := true }, delay_ms * 3)
  else
    ({ s1 with board := nb, board2 := s1.board, board3 := s1.board2, next_board := s1.board3, round := s1.round + 1 }, delay_ms)

/-- The stagnation condition `do_frame` acts on, after any pending reset:
the evolved grid equals one of the three retained grids, or the round
counter would exceed the cap. -/
def frame_stagnates (s1 : GameState) : Prop :=
  evolve_board s1.board s1.next_board = s1.board ∨
  evolve_board s1.board s1.next_board = s1.board2 ∨
  evolve_board s1.board s1.next_board = s1.board3 ∨
  s1.round + 1 > MAX_ROUNDS

instance (s1 : GameState) : Decidable (frame_stagnates s1) := by
  unfold frame_stagnates; infer_instance

/-- When the evolved grid matches one of the three retained grids, `do_frame`
sets the reset flag, stores the evolved grid in `next_board`, touches nothing
else, and returns triple delay. -/
theorem do_frame_match (s : GameState) (delay_ms : Int) (draws : Nat → Bool)
    (cc : Color) (hflag : s.reset_flag = false)
    (hm : evolve_board s.board s.next_board = s.board ∨
      evolve_board s.board s.next_board = s.board2 ∨
      evolve_board s.board s.next_board = s.board3) :
    do_frame s delay_ms draws cc =
      ({ s with next_board := evolve_board s.board s.next_board, reset_flag := true }, delay_ms * 3) := by
  unfold do_frame
  rw [hflag]
  simp only [Bool.false_eq_true, if_false]
  rw [if_pos hm]

/-- When nothing matches but the incremented round counter exceeds the cap,
`do_frame` sets the reset flag, increments the counter, does not rotate, and
returns triple delay. -/
theorem do_frame_cap (s : GameState) (delay_ms : Int) (draws : Nat → Bool)
    (cc : Color) (hflag : s.reset_flag = false)
    (h1 : evolve_board s.board s.next_board ≠ s.board)
    (h2 : evolve_board s.board s.next_board ≠ s.board2)
    (h3 : evolve_board s.board s.next_board ≠ s.board3)
    (hcap : s.round + 1 > MAX_ROUNDS) :
    do_frame s delay_ms draws cc =
      ({ s with next_board := evolve_board s.board s.next_board, round := s.round + 1, reset_flag := true }, delay_ms * 3) := by
  unfold do_frame
  rw [hflag]
  simp only [Bool.false_eq_true, if_false]
  rw [if_neg (fun hor => hor.elim h1 (fun hor2 => hor2.elim h2 h3)), if_pos hcap]

/-- When nothing matches and the cap is not exceeded, `do_frame` rotates the
buffers (oldest buffer recycled as the next scratch buffer, evolved grid
becomes current), increments the counter, and returns the normal delay. -/
theorem do_frame_rotate (s : GameState) (delay_ms : Int) (draws : Nat → Bool)
    (cc : Color) (hflag : s.reset_flag = false)
    (h1 : evolve_board s.board s.next_board ≠ s.board)
    (h2 : evolve_board s.board s.next_board ≠ s.board2)
    (h3 : evolve_board s.board s.next_board ≠ s.board3)
    (hcap : s.round + 1 ≤ MAX_ROUNDS) :
    do_frame s delay_ms draws cc =
      ({ s with board := evolve_board s.board s.next_board, board2 := s.board, board3 := s.board2, next_board := s.board3, round := s.round + 1 }, delay_ms) := by
  unfold do_frame
  rw [hflag]
  simp only [Bool.false_eq_true, if_false]
  rw [if_neg (fun hor => hor.elim h1 (fun hor2 => hor2.elim h2 h3)),
    if_neg (Nat.not_lt.mpr hcap), hflag]

/-- Stepping into a pending reset first is the same as running the frame on
the reset state (whose own flag is clear). -/
theorem do_frame_reset_step (s : GameState) (delay_ms : Int)
    (draws : Nat → Bool) (cc : Color) (hrf : s.reset_flag = true) :
    do_frame s delay_ms draws cc =
      do_frame (do_reset s draws cc) delay_ms draws cc := by
  unfold do_frame
  rw [hrf]
  rfl

/-- On a frame with no pending reset, the returned period is triple the
configured delay exactly when the stagnation condition fires, and positive
whenever the configured delay is. -/
theorem frame_delay_of_flag_false (s1 : GameState) (delay_ms : Int)
    (draws : Nat → Bool) (cc : Color) (hflag : s1.reset_flag = false)
    (hlo : 25 ≤ delay_ms) :
    0 < (do_frame s1 delay_ms draws cc).2 ∧
    (do_frame s1 delay_ms draws cc).2 =
      (if frame_stagnates s1 then delay_ms * 3 else delay_ms) := by
  by_cases hm : evolve_board s1.board s1.next_board = s1.board ∨
      evolve_board s1.board s1.next_board = s1.board2 ∨
      evolve_board s1.board s1.next_board = s1.board3
  · rw [do_frame_match s1 delay_ms draws cc hflag hm]
    have hs : frame_stagnates s1 := by
      rcases hm with h | h | h
      exacts [Or.inl h, Or.inr (Or.inl h), Or.inr (Or.inr (Or.inl h))]
    rw [if_pos hs]
    exact ⟨by omega, rfl⟩
  · push_neg at hm
    obtain ⟨h1, h2, h3⟩ := hm
    by_cases hcap : s1.round + 1 > MAX_ROUNDS
    · rw [do_frame_cap s1 delay_ms draws cc hflag h1 h2 h3 hcap]
      have hs : frame_stagnates s1 := Or.inr (Or.inr (Or.inr hcap))
      rw [if_pos hs]
      exact ⟨by omega, rfl⟩
    · rw [do_frame_rotate s1 delay_ms draws cc hflag h1 h2 h3
        (Nat.le_of_not_lt hcap)]
      have hs : ¬ frame_stagnates s1 := by
        rintro (h | h | h | h)
        exacts [h1 h, h2 h, h3 h, hcap h]
      rw [if_neg hs]
      exact ⟨by omega, rfl⟩

/-- C4: on every frame, if the configured delay is in [25, 5000] then
`do_frame` returns a positive number of milliseconds — exactly triple the
configured delay on the frame making a stagnation-triggered reset decision
(a repeat of a retained grid, or the round cap exceeded), and exactly the
configured delay on a normal frame; never zero or negative. -/
theorem C4_positive_delay (s : GameState) (delay_ms : Int)
    (draws : Nat → Bool) (cc : Color)
    (hlo : 25 ≤ delay_ms) (_hhi : delay_ms ≤ 5000) :
    0 < (do_frame s delay_ms draws cc).2 ∧
    (do_frame s delay_ms draws cc).2 =
      (if frame_stagnates (if s.reset_flag then do_reset s draws cc else s)
       then delay_ms * 3 else delay_ms) := by
  by_cases hrf : s.reset_flag = true
  · rw [do_frame_reset_step s delay_ms draws cc hrf, hrf, if_pos rfl]
    exact frame_delay_of_flag_false _ delay_ms draws cc rfl hlo
  · have hrf' : s.reset_flag = false := by
      revert hrf; cases s.reset_flag <;> simp
    rw [hrf']
    simp only [Bool.false_eq_true, if_false]
    exact frame_delay_of_flag_false s delay_ms draws cc hrf' hlo

/-- C5: with no reset pending, when the evolved grid matches none of the
three retained grids, `do_frame` increments the round counter (which
`do_reset` clears to 0); if the incremented counter exceeds the cap it sets
the reset flag and returns triple delay without rotating the buffers (the
whole state is unchanged except `next_board`, `round` and the flag),
otherwise it rotates the buffers (evolved grid becomes current, oldest
buffer recycled as scratch) and returns the normal delay. -/
theorem C5_round_cap (s : GameState) (delay_ms : Int)
    (draws : Nat → Bool) (cc : Color) (hflag : s.reset_flag = false)
    (h1 : evolve_board s.board s.next_board ≠ s.board)
    (h2 : evolve_board s.board s.next_board ≠ s.board2)
    (h3 : evolve_board s.board s.next_board ≠ s.board3) :
    (do_reset s draws cc).round = 0 ∧
    (do_frame s delay_ms draws cc).1.round = s.round + 1 ∧
    (if s.round + 1 > MAX_ROUNDS
     then do_frame s delay_ms draws cc =
       ({ s with next_board := evolve_board s.board s.next_board, round := s.round + 1, reset_flag := true }, delay_ms * 3)
     else do_frame s delay_ms draws cc =
       ({ s with board := evolve_board s.board s.next_board, board2 := s.board, board3 := s.board2, next_board := s.board3, round := s.round + 1 }, delay_ms)) := by
  refine ⟨rfl, ?_, ?_⟩
  · by_cases hcap : s.round + 1 > MAX_ROUNDS
    · rw [do_frame_cap s delay_ms draws cc hflag h1 h2 h3 hcap]
    · rw [do_frame_rotate s delay_ms draws cc hflag h1 h2 h3
        (Nat.le_of_not_lt hcap)]
  · by_cases hcap : s.round + 1 > MAX_ROUNDS
    · rw [if_pos hcap]
      exact do_frame_cap s delay_ms draws cc hflag h1 h2 h3 hcap
    · rw [if_neg hcap]
      exact do_frame_rotate s delay_ms draws cc hflag h1 h2 h3
        (Nat.le_of_not_lt hcap)

/-! ### Concrete boards for counterexamples and witnesses -/

/-- A board with a single fully-alive cell at row 3, column 5. -/
def single9Board : Board :=
  (List.range CELL_COUNT).map (fun p => if p = logicalPos 3 5 then 9 else 0)

/-- A board with a single intensity-8 cell at row 3, column 5: what
`single9Board` evolves into (the lone cell starts fading, nothing is born). -/
def single8Board : Board :=
  (List.range CELL_COUNT).map (fun p => if p = logicalPos 3 5 then 8 else 0)

theorem evolve_single9 : evolve_board single9Board zeroBoard = single8Board := by
  decide

theorem single8_ne_single9 : single8Board ≠ single9Board := by decide

theorem single8_ne_zero : single8Board ≠ zeroBoard := by decide

/-- A run state about to evolve `single9Board` into `single8Board`, which
equals the three-steps-back grid `board3` but neither the grid it was
evolved from nor the grid from two steps back. -/
def cexState : GameState :=
  { board := single9Board
    next_board := zeroBoard
    board2 := zeroBoard
    board3 := single8Board
    round := 0
    reset_flag := false
    tint := (0, 0, 0) }

/-- C2 counterexample: at `cexState` the evolved grid differs from the grid
it was evolved from and from the grid two steps back, yet `do_frame` still
marks the run stagnant (reset flag set, triple delay) — so stagnation is not
equivalent to matching one of only those two grids. -/
theorem C2_counterexample :
    evolve_board cexState.board cexState.next_board ≠ cexState.board ∧
    evolve_board cexState.board cexState.next_board ≠ cexState.board2 ∧
    (do_frame cexState 250 (fun _ => false) (0, 0, 0)).1.reset_flag = true ∧
    (do_frame cexState 250 (fun _ => false) (0, 0, 0)).2 = 250 * 3 := by
  have he : evolve_board cexState.board cexState.next_board = single8Board :=
    evolve_single9
  have hdf := do_frame_match cexState 250 (fun _ => false) (0, 0, 0) rfl
    (Or.inr (Or.inr evolve_single9))
  refine ⟨?_, ?_, ?_, ?_⟩
  · rw [he]; exact single8_ne_single9
  · rw [he]; exact single8_ne_zero
  · rw [hdf]
  · rw [hdf]

/-- C2 (amended): after each evolution on a frame with no reset pending and
the round cap not yet reached, the run is marked stagnant (reset flag set,
triple delay returned) if and only if the new grid equals one of the THREE
retained grids: the grid it was evolved from, the grid from two steps back,
or the grid from three steps back. -/
theorem C2_amended_three_way (s : GameState) (delay_ms : Int)
    (draws : Nat → Bool) (cc : Color) (hflag : s.reset_flag = false)
    (hcap : s.round + 1 ≤ MAX_ROUNDS) :
    (((do_frame s delay_ms draws cc).1.reset_flag = true ∧
      (do_frame s delay_ms draws cc).2 = delay_ms * 3) ↔
    (evolve_board s.board s.next_board = s.board ∨
     evolve_board s.board s.next_board = s.board2 ∨
     evolve_board s.board s.next_board = s.board3)) := by
  constructor
  · rintro ⟨hrf, _⟩
    by_contra hor
    push_neg at hor
    obtain ⟨h1, h2, h3⟩ := hor
    rw [do_frame_rotate s delay_ms draws cc hflag h1 h2 h3 hcap] at hrf
    exact absurd hrf (by simp [hflag])
  · intro hm
    rw [do_frame_match s delay_ms draws cc hflag hm]
    exact ⟨rfl, rfl⟩

/-- C2 witness: the amended equivalence instantiated at `cexState`. -/
theorem C2_witness :
    (((do_frame cexState 250 (fun _ => false) (0, 0, 0)).1.reset_flag = true ∧
      (do_frame cexState 250 (fun _ => false) (0, 0, 0)).2 = 250 * 3) ↔
    (evolve_board cexState.board cexState.next_board = cexState.board ∨
     evolve_board cexState.board cexState.next_board = cexState.board2 ∨
     evolve_board cexState.board cexState.next_board = cexState.board3)) :=
  C2_amended_three_way cexState 250 (fun _ => false) (0, 0, 0) rfl (by decide)

/-- C9: `do_frame` also compares the evolved grid with the grid from three
steps back (`board3`, the oldest retained buffer) and marks the run stagnant
— reset flag set, triple delay returned — when they are equal, so cycles of
period 3 also force a reset. -/
theorem C9_board3_detected (s : GameState) (delay_ms : Int)
    (draws : Nat → Bool) (cc : Color) (hflag : s.reset_flag = false)
    (h3 : evolve_board s.board s.next_board = s.board3) :
    (do_frame s delay_ms draws cc).1.reset_flag = true ∧
    (do_frame s delay_ms draws cc).2 = delay_ms * 3 := by
  rw [do_frame_match s delay_ms draws cc hflag (Or.inr (Or.inr h3))]
  exact ⟨rfl, rfl⟩

/-- C9 witness: a period-3-style repeat (evolved grid equals `board3` only)
detected at `cexState`. -/
theorem C9_witness :
    (do_frame cexState 250 (fun _ => false) (0, 0, 0)).1.reset_flag = true ∧
    (do_frame cexState 250 (fun _ => false) (0, 0, 0)).2 = 250 * 3 :=
  C9_board3_detected cexState 250 (fun _ => false) (0, 0, 0) rfl evolve_single9

/-- An all-dead run state: its board evolves to itself, so the very first
comparison (against the grid it was evolved from) fires. -/
def deadState : GameState :=
  { board := zeroBoard
    next_board := zeroBoard
    board2 := zeroBoard
    board3 := zeroBoard
    round := 0
    reset_flag := false
    tint := (0, 0, 0) }

/-- C4 witness: the delay contract instantiated at `deadState`. -/
theorem C4_witness :
    0 < (do_frame deadState 250 (fun _ => false) (0, 0, 0)).2 ∧
    (do_frame deadState 250 (fun _ => false) (0, 0, 0)).2 =
      (if frame_stagnates
            (if deadState.reset_flag
             then do_reset deadState (fun _ => false) (0, 0, 0) else deadState)
       then 250 * 3 else 250) :=
  C4_positive_delay deadState 250 (fun _ => false) (0, 0, 0)
    (by decide) (by decide)

/-- A run state whose board changes on evolution and matches no retained
grid: `single9Board` fades to `single8Board`, all history grids are dead. -/
def rotState : GameState :=
  { board := single9Board
    next_board := zeroBoard
    board2 := zeroBoard
    board3 := zeroBoard
    round := 0
    reset_flag := false
    tint := (0, 0, 0) }

/-- C5 witness: the round-counter/rotation behavior instantiated at
`rotState` (non-repeating board, counter below the cap). -/
theorem C5_witness :
    (do_reset rotState (fun _ => false) (0, 0, 0)).round = 0 ∧
    (do_frame rotState 250 (fun _ => false) (0, 0, 0)).1.round =
      rotState.round + 1 ∧
    (if rotState.round + 1 > MAX_ROUNDS
     then do_frame rotState 250 (fun _ => false) (0, 0, 0) =
       ({ rotState with next_board := evolve_board rotState.board rotState.next_board, round := rotState.round + 1, reset_flag := true }, 250 * 3)
     else do_frame rotState 250 (fun _ => false) (0, 0, 0) =
       ({ rotState with board := evolve_board rotState.board rotState.next_board, board2 := rotState.board, board3 := rotState.board2, next_board := rotState.board3, round := rotState.round + 1 }, 250)) :=
  C5_round_cap rotState 250 (fun _ => false) (0, 0, 0) rfl
    (by rw [show evolve_board rotState.board rotState.next_board = single8Board
          from evolve_single9]
        exact single8_ne_single9)
    (by rw [show evolve_board rotState.board rotState.next_board = single8Board
          from evolve_single9]
        exact single8_ne_zero)
    (by rw [show evolve_board rotState.board rotState.next_board = single8Board
          from evolve_single9]
        exact single8_ne_zero)

/-! ### The renderer (`show_board`) and the input controller -/

/-- The two display modes stored in `settings["mode"]`
(`"fade_out"` / `"live"`). -/
inductive Mode where
  | fade_out
  | live
deriving DecidableEq

/-- The persisted configuration record (source `settings`):
`{"delay_ms": ..., "mode": ...}`. -/
structure Settings where
  delay_ms : Int
  mode : Mode
deriving DecidableEq

/-- The pixels the source's `show_board` loop body emits for logical cell
`(col c, row r)`: in fade-out mode every nonzero cell is drawn with
`palette[board[pos] - 1]`; otherwise only cells of intensity exactly 9 are
drawn, with `palette[8]`. -/
def drawCell (pal : List Color) (mode : Mode) (board : Board) (r c : Nat) :
    List (Color × Nat × Nat) :=
  if board.getD (logicalPos r c) 0 ≠ 0 then
    if mode = Mode.fade_out then
      [(pal.getD (board.getD (logicalPos r c) 0 - 1) (0, 0, 0), (c, r))]
    else
      if board.getD (logicalPos r c) 0 = 9 then
        [(pal.getD 8 (0, 0, 0), (c, r))]
      else []
  else []

/-- Source `show_board(board)`: the list of `rgb.pixel(color, (c, r))` calls
issued while scanning the logical cells in row-major order.  The global
`settings["mode"]` and `palette` are passed explicitly. -/
def show_board (pal : List Color) (mode : Mode) (board : Board) :
    List (Color × Nat × Nat) :=
  (List.range ROWS).flatMap
    (fun r => (List.range COLS).flatMap (fun c => drawCell pal mode board r c))

theorem mem_show_board (pal : List Color) (mode : Mode) (board : Board)
    (x : Color × Nat × Nat) :
    x ∈ show_board pal mode board ↔
      ∃ r, r < ROWS ∧ ∃ c, c < COLS ∧ x ∈ drawCell pal mode board r c := by
  unfold show_board
  simp [List.mem_flatMap, List.mem_range]

theorem mem_drawCell (pal : List Color) (mode : Mode) (board : Board)
    (r1 c1 : Nat) (x : Color × Nat × Nat) :
    x ∈ drawCell pal mode board r1 c1 ↔
      (board.getD (logicalPos r1 c1) 0 ≠ 0 ∧
        ((mode = Mode.fade_out ∧
          x = (pal.getD (board.getD (logicalPos r1 c1) 0 - 1) (0, 0, 0), (c1, r1))) ∨
         (mode ≠ Mode.fade_out ∧ board.getD (logicalPos r1 c1) 0 = 9 ∧
          x = (pal.getD 8 (0, 0, 0), (c1, r1))))) := by
  unfold drawCell
  split_ifs with h0 hm h9 <;> simp_all

/-- C6: in Live mode `show_board` draws exactly the cells whose intensity is
exactly 9, each with the tint color in palette slot 8 (the slot substituted
at reset); in FadeOut mode it draws exactly the cells with nonzero
intensity, each with `palette[intensity - 1]`; in both modes cells with
intensity 0 are never drawn. -/
theorem C6_render_modes (pal : List Color) (board : Board) (r c : Nat)
    (hr : r < ROWS) (hc : c < COLS) :
    (((pal.getD 8 (0, 0, 0), (c, r)) ∈ show_board pal Mode.live board ↔
        board.getD (logicalPos r c) 0 = 9) ∧
      (∀ col, (col, (c, r)) ∈ show_board pal Mode.live board →
        col = pal.getD 8 (0, 0, 0)) ∧
      (board.getD (logicalPos r c) 0 = 0 →
        ∀ col, (col, (c, r)) ∉ show_board pal Mode.live board)) ∧
    (((pal.getD (board.getD (logicalPos r c) 0 - 1) (0, 0, 0), (c, r)) ∈
          show_board pal Mode.fade_out board ↔
        board.getD (logicalPos r c) 0 ≠ 0) ∧
      (∀ col, (col, (c, r)) ∈ show_board pal Mode.fade_out board →
        col = pal.getD (board.getD (logicalPos r c) 0 - 1) (0, 0, 0)) ∧
      (board.getD (logicalPos r c) 0 = 0 →
        ∀ col, (col, (c, r)) ∉ show_board pal Mode.fade_out board)) := by
  have hlive : ∀ col, (col, (c, r)) ∈ show_board pal Mode.live board →
      col = pal.getD 8 (0, 0, 0) ∧ board.getD (logicalPos r c) 0 = 9 := by
    intro col hmem
    rw [mem_show_board] at hmem
    obtain ⟨r1, hr1, c1, hc1, hd⟩ := hmem
    rw [mem_drawCell] at hd
    obtain ⟨-, hd | ⟨-, h9, hx⟩⟩ := hd
    · exact absurd hd.1 (by simp)
    · obtain ⟨hcol, hc2, hr2⟩ :
          col = pal.getD 8 (0, 0, 0) ∧ c = c1 ∧ r = r1 := by
        simpa only [Prod.mk.injEq] using hx
      subst hc2; subst hr2
      exact ⟨hcol, h9⟩
  have hfade : ∀ col, (col, (c, r)) ∈ show_board pal Mode.fade_out board →
      col = pal.getD (board.getD (logicalPos r c) 0 - 1) (0, 0, 0) ∧
        board.getD (logicalPos r c) 0 ≠ 0 := by
    intro col hmem
    rw [mem_show_board] at hmem
    obtain ⟨r1, hr1, c1, hc1, hd⟩ := hmem
    rw [mem_drawCell] at hd
    obtain ⟨h0, ⟨-, hx⟩ | hd⟩ := hd
    · obtain ⟨hcol, hc2, hr2⟩ :
          col = pal.getD (board.getD (logicalPos r1 c1) 0 - 1) (0, 0, 0) ∧
            c = c1 ∧ r = r1 := by
        simpa only [Prod.mk.injEq] using hx
      subst hc2; subst hr2
      exact ⟨hcol, h0⟩
    · exact absurd hd.1 (by simp)
  refine ⟨⟨⟨?_, ?_⟩, fun col h => (hlive col h).1, ?_⟩,
    ⟨⟨fun h => (hfade _ h).2, ?_⟩, fun col h => (hfade col h).1, ?_⟩⟩
  · intro h
    exact (hlive _ h).2
  · intro h9
    rw [mem_show_board]
    refine ⟨r, hr, c, hc, ?_⟩
    rw [mem_drawCell]
    exact ⟨by rw [h9]; simp, Or.inr ⟨by simp, h9, rfl⟩⟩
  · intro h0 col hmem
    exact absurd ((hlive col hmem).2) (by rw [h0]; simp)
  · intro hne
    rw [mem_show_board]
    refine ⟨r, hr, c, hc, ?_⟩
    rw [mem_drawCell]
    exact ⟨hne, Or.inl ⟨rfl, rfl⟩⟩
  · intro h0 col hmem
    exact absurd ((hfade col hmem).2) (by rw [h0]; simp)

/-- C6 witness: the rendering contract instantiated with the source palette
on the single-live-cell board at cell (0, 0). -/
theorem C6_witness :
    (((palette.getD 8 (0, 0, 0), (0, 0)) ∈
          show_board palette Mode.live single9Board ↔
        single9Board.getD (logicalPos 0 0) 0 = 9) ∧
      (∀ col, (col, (0, 0)) ∈ show_board palette Mode.live single9Board →
        col = palette.getD 8 (0, 0, 0)) ∧
      (single9Board.getD (logicalPos 0 0) 0 = 0 →
        ∀ col, (col, (0, 0)) ∉ show_board palette Mode.live single9Board)) ∧
    (((palette.getD (single9Board.getD (logicalPos 0 0) 0 - 1) (0, 0, 0), (0, 0)) ∈
          show_board palette Mode.fade_out single9Board ↔
        single9Board.getD (logicalPos 0 0) 0 ≠ 0) ∧
      (∀ col, (col, (0, 0)) ∈ show_board palette Mode.fade_out single9Board →
        col = palette.getD (single9Board.getD (logicalPos 0 0) 0 - 1) (0, 0, 0)) ∧
      (single9Board.getD (logicalPos 0 0) 0 = 0 →
        ∀ col, (col, (0, 0)) ∉ show_board palette Mode.fade_out single9Board)) :=
  C6_render_modes palette single9Board 0 0 (by decide) (by decide)

/-- Source `button_up`: on press, add 25 to the delay; keep and persist the
result when it stays at most 5000, otherwise leave the settings untouched
and flash the background.  Returns (settings, saved, flashed). -/
def button_up (pressed : Bool) (s : Settings) : Settings × Bool × Bool :=
  if pressed then
    if s.delay_ms + 25 ≤ 5000 then
      ({ s with delay_ms := s.delay_ms + 25 }, true, false)
    else (s, false, true)
  else (s, false, false)

/-- Source `button_down`: on press, subtract 25 from the delay; keep and
persist the result when it stays at least 25, otherwise leave the settings
untouched and flash the background.  Returns (settings, saved, flashed). -/
def button_down (pressed : Bool) (s : Settings) : Settings × Bool × Bool :=
  if pressed then
    if 25 ≤ s.delay_ms - 25 then
      ({ s with delay_ms := s.delay_ms - 25 }, true, false)
    else (s, false, true)
  else (s, false, false)

/-- Source `button_left`: on press, flip the mode between fade-out and live
and persist.  Returns (settings, saved). -/
def button_left (pressed : Bool) (s : Settings) : Settings × Bool :=
  if pressed then
    ({ s with mode := if s.mode = Mode.fade_out then Mode.live else Mode.fade_out },
      true)
  else (s, false)

/-- C7: a speed-up press adds 25 and persists exactly when the result stays
at most 5000, otherwise leaves the delay unchanged, persists nothing and
flashes; a speed-down press subtracts 25 and persists exactly when the
result stays at least 25, with the same failure behavior.  In particular
speed-up from 4975 reaches exactly 5000 and speed-up from 4990 stays 4990. -/
theorem C7_speed_buttons :
    (∀ s : Settings,
      (s.delay_ms + 25 ≤ 5000 →
        button_up true s = ({ s with delay_ms := s.delay_ms + 25 }, true, false)) ∧
      (¬ s.delay_ms + 25 ≤ 5000 → button_up true s = (s, false, true)) ∧
      (25 ≤ s.delay_ms - 25 →
        button_down true s = ({ s with delay_ms := s.delay_ms - 25 }, true, false)) ∧
      (¬ 25 ≤ s.delay_ms - 25 → button_down true s = (s, false, true))) ∧
    button_up true { delay_ms := 4975, mode := Mode.fade_out } =
      ({ delay_ms := 5000, mode := Mode.fade_out }, true, false) ∧
    button_up true { delay_ms := 4990, mode := Mode.fade_out } =
      ({ delay_ms := 4990, mode := Mode.fade_out }, false, true) := by
  refine ⟨fun s => ⟨?_, ?_, ?_, ?_⟩, by decide, by decide⟩
  · intro h; simp [button_up, h]
  · intro h; simp [button_up, h]
  · intro h; simp [button_down, h]
  · intro h; simp [button_down, h]

/-- C7 witness: a successful speed-up from the default 250 ms delay. -/
theorem C7_witness :
    button_up true { delay_ms := 250, mode := Mode.fade_out } =
      ({ delay_ms := 275, mode := Mode.fade_out }, true, false) :=
  (C7_speed_buttons.1 { delay_ms := 250, mode := Mode.fade_out }).1 (by decide)

/-- C8: one mode-toggle press flips the configuration to the other mode and
persists; two consecutive presses restore the original mode (the toggle is
an involution on the two-value mode enum). -/
theorem C8_mode_toggle : ∀ s : Settings,
    (button_left true s).1.mode ≠ s.mode ∧
    (button_left true (button_left true s).1).1.mode = s.mode ∧
    (button_left true s).2 = true ∧
    (button_left true (button_left true s).1).2 = true := by
  intro s
  obtain ⟨d, m⟩ := s
  cases m <;> simp [button_left]

end FastLife
